import Mathlib

/-!
Shallow embedding of the frame-sampling core of the `video_editer` repository
(`src/video_cut.py` and `src/pipeline.py`), together with proofs of the
specification claims about it.

Modelling conventions:
* Python `float` time values are embedded as `ℚ`; the claims under study are
  about orderings and exact small decimal constants (`0.2`, `0.5`, `10.0`,
  `0.01`), all of which are exact here.
* Python strings are embedded as Lean `String`/`List Char` (Python `len` and
  slicing count code points, as `String.length`/`List.take` do here).
  String algorithms are written over `List Char` so that they evaluate.
* Filesystem and subprocess effects (ffmpeg extraction, `PIL` image loading)
  are modelled by explicit oracles: the boolean outcome of an extraction
  attempt and the `Option String` result of `calculate_image_hash`.
-/

/-- The set of characters matched by Python's `\s` (and stripped by
`str.strip()`) for `str` patterns: ASCII whitespace, the C1 separators,
NEL, and the Unicode space separators. -/
def isPySpace (c : Char) : Bool :=
  c ∈ [' ', '\t', '\n', '\r', '\x0b', '\x0c',
       '\u001c', '\u001d', '\u001e', '\u001f', '\u0085', ' ',
       ' ', ' ', ' ', ' ', ' ', ' ',
       ' ', ' ', ' ', ' ', ' ', ' ',
       ' ', ' ', ' ', ' ', '　']

/-- Python `str.strip()` on a char list: drop leading and trailing whitespace. -/
def pyStrip (l : List Char) : List Char :=
  ((l.dropWhile isPySpace).reverse.dropWhile isPySpace).reverse

/-- Python `str.strip()` on a `String`. -/
def pyStripStr (s : String) : String :=
  String.mk (pyStrip s.data)

/-- Python truthiness of a string: `""` and a missing value are falsy. -/
def pyStrTruthy (s : String) : Bool :=
  !s.data.isEmpty

/-- `int(t)` on a float/rational: truncation toward zero. -/
def pyIntTrunc (q : ℚ) : ℤ :=
  if 0 ≤ q then ⌊q⌋ else ⌈q⌉

/-- Python `round(x)` with no digits argument: round half to even. -/
def pyRound (q : ℚ) : ℤ :=
  if q - ⌊q⌋ < 1/2 then ⌊q⌋
  else if 1/2 < q - ⌊q⌋ then ⌊q⌋ + 1
  else if ⌊q⌋ % 2 = 0 then ⌊q⌋ else ⌊q⌋ + 1

namespace VideoCut

/- == Perceptual similarity filter (`video_cut.py`, lines 152-169) ========= -/

/-- `sum(c1 != c2 for c1, c2 in zip(current_hash, prev_hash))`
(`video_cut.py` line 167): character-wise Hamming distance of the two
encoded fingerprints, over the zipped (truncated-to-shorter) strings. -/
def hammingDist (a b : String) : ℕ :=
  (List.zip a.data b.data).countP fun p => p.1 != p.2

/-- `is_similar_to_previous(image_path, previous_hashes, similarity_threshold)`
(`video_cut.py` lines 162-169).  The I/O call `calculate_image_hash(image_path)`
is modelled by its result `current_hash : Option String` (`none` = the hash
computation failed and returned Python `None`).  The Python `set` of previous
fingerprints is modelled as the list of its elements; only membership matters
to the result.  `if not current_hash` is falsy for both `None` and `""`. -/
def is_similar_to_previous (current_hash : Option String) (previous_hashes : List String)
    (similarity_threshold : ℤ) : Bool :=
  if previous_hashes.isEmpty then false
  else
    match current_hash with
    | none => false
    | some h =>
      if h.data.isEmpty then false
      else previous_hashes.any fun prev =>
        decide ((hammingDist h prev : ℤ) ≤ similarity_threshold)

/- == Output path resolver (`video_cut.py`, lines 187-206) ================= -/

/-- The character class of `_ILLEGAL_WIN_CHARS = re.compile(r'[<>:"/\\|?*]')`
(`video_cut.py` line 187). -/
def isIllegalWinChar (c : Char) : Bool :=
  c ∈ ['<', '>', ':', '"', '/', '\\', '|', '?', '*']

/-- `_ILLEGAL_WIN_CHARS.sub('_', name)`: replace every illegal character by `_`. -/
def replaceIllegal (l : List Char) : List Char :=
  l.map fun c => if isIllegalWinChar c then '_' else c

/-- `re.sub(r"\s+", " ", s)`: collapse every whitespace run to a single space.
The flag records whether the previous character was part of a whitespace run. -/
def collapseWsAux : Bool → List Char → List Char
  | _, [] => []
  | prevSpace, c :: rest =>
    if isPySpace c then
      if prevSpace then collapseWsAux true rest
      else ' ' :: collapseWsAux true rest
    else c :: collapseWsAux false rest

/-- `re.sub(r"\s+", " ", s)` on a char list. -/
def collapseWs (l : List Char) : List Char :=
  collapseWsAux false l

/-- Python `str.rstrip(' .')`: drop trailing spaces and periods. -/
def rstripSpaceDot (l : List Char) : List Char :=
  (l.reverse.dropWhile fun c => c = ' ' || c = '.').reverse

/-- `_safe_for_filename(name, max_len=120)` (`video_cut.py` lines 189-193):
replace illegal characters with `_`, collapse whitespace runs, strip
surrounding whitespace, strip trailing spaces/periods, truncate to `max_len`
code points. -/
def _safe_for_filename (name : String) (max_len : ℕ := 120) : String :=
  let cleaned := replaceIllegal name.data
  let cleaned := pyStrip (collapseWs cleaned)
  let cleaned := rstripSpaceDot cleaned
  String.mk (cleaned.take max_len)

/- == MD5 (Python `hashlib.md5`, used by `_hash8`) ========================= -/

/-- Two's complement of a 32-bit word held in a `Nat` below `2^32`. -/
def md5Not (x : ℕ) : ℕ := 4294967295 - x

/-- Left-rotation of a 32-bit word. -/
def md5Rotl (x c : ℕ) : ℕ :=
  ((x <<< c) ||| (x >>> (32 - c))) % 4294967296

/-- The 64 MD5 sine-derived constants of RFC 1321. -/
def md5K : List ℕ :=
  [0xd76aa478, 0xe8c7b756, 0x242070db, 0xc1bdceee,
   0xf57c0faf, 0x4787c62a, 0xa8304613, 0xfd469501,
   0x698098d8, 0x8b44f7af, 0xffff5bb1, 0x895cd7be,
   0x6b901122, 0xfd987193, 0xa679438e, 0x49b40821,
   0xf61e2562, 0xc040b340, 0x265e5a51, 0xe9b6c7aa,
   0xd62f105d, 0x02441453, 0xd8a1e681, 0xe7d3fbc8,
   0x21e1cde6, 0xc33707d6, 0xf4d50d87, 0x455a14ed,
   0xa9e3e905, 0xfcefa3f8, 0x676f02d9, 0x8d2a4c8a,
   0xfffa3942, 0x8771f681, 0x6d9d6122, 0xfde5380c,
   0xa4beea44, 0x4bdecfa9, 0xf6bb4b60, 0xbebfbc70,
   0x289b7ec6, 0xeaa127fa, 0xd4ef3085, 0x04881d05,
   0xd9d4d039, 0xe6db99e5, 0x1fa27cf8, 0xc4ac5665,
   0xf4292244, 0x432aff97, 0xab9423a7, 0xfc93a039,
   0x655b59c3, 0x8f0ccc92, 0xffeff47d, 0x85845dd1,
   0x6fa87e4f, 0xfe2ce6e0, 0xa3014314, 0x4e0811a1,
   0xf7537e82, 0xbd3af235, 0x2ad7d2bb, 0xeb86d391]

/-- The per-operation left-rotation amounts of RFC 1321. -/
def md5S : List ℕ :=
  [7, 12, 17, 22, 7, 12, 17, 22, 7, 12, 17, 22, 7, 12, 17, 22,
   5, 9, 14, 20, 5, 9, 14, 20, 5, 9, 14, 20, 5, 9, 14, 20,
   4, 11, 16, 23, 4, 11, 16, 23, 4, 11, 16, 23, 4, 11, 16, 23,
   6, 10, 15, 21, 6, 10, 15, 21, 6, 10, 15, 21, 6, 10, 15, 21]

/-- The MD5 round function for operation `i`. -/
def md5F (i b c d : ℕ) : ℕ :=
  if i < 16 then (b &&& c) ||| (md5Not b &&& d)
  else if i < 32 then (d &&& b) ||| (md5Not d &&& c)
  else if i < 48 then b ^^^ c ^^^ d
  else c ^^^ (b ||| md5Not d)

/-- The MD5 message-word index for operation `i`. -/
def md5G (i : ℕ) : ℕ :=
  if i < 16 then i
  else if i < 32 then (5 * i + 1) % 16
  else if i < 48 then (3 * i + 5) % 16
  else (7 * i) % 16

/-- One of the 64 MD5 operations on the running `(a, b, c, d)` state,
with `m` the 16 message words of the current block. -/
def md5Step (m : List ℕ) (st : ℕ × ℕ × ℕ × ℕ) (i : ℕ) : ℕ × ℕ × ℕ × ℕ :=
  let (a, b, c, d) := st
  let f := (md5F i b c d + a + md5K.getD i 0 + m.getD (md5G i) 0) % 4294967296
  (d, (b + md5Rotl f (md5S.getD i 0)) % 4294967296, b, c)

/-- Process one 512-bit block (16 words) of the message. -/
def md5Block (st : ℕ × ℕ × ℕ × ℕ) (m : List ℕ) : ℕ × ℕ × ℕ × ℕ :=
  let (a0, b0, c0, d0) := st
  let (a, b, c, d) := (List.range 64).foldl (md5Step m) (a0, b0, c0, d0)
  ((a0 + a) % 4294967296, (b0 + b) % 4294967296,
   (c0 + c) % 4294967296, (d0 + d) % 4294967296)

/-- Group the (little-endian) padded byte list into 32-bit words. -/
def md5Words : List ℕ → List ℕ
  | b0 :: b1 :: b2 :: b3 :: rest =>
    (b0 + 256 * b1 + 65536 * b2 + 16777216 * b3) :: md5Words rest
  | _ => []

/-- A 64-bit value as 8 little-endian bytes. -/
def md5Le8 (n : ℕ) : List ℕ :=
  [n % 256, n / 2 ^ 8 % 256, n / 2 ^ 16 % 256, n / 2 ^ 24 % 256,
   n / 2 ^ 32 % 256, n / 2 ^ 40 % 256, n / 2 ^ 48 % 256, n / 2 ^ 56 % 256]

/-- A 32-bit word as 4 little-endian bytes. -/
def md5Le4 (n : ℕ) : List ℕ :=
  [n % 256, n / 2 ^ 8 % 256, n / 2 ^ 16 % 256, n / 2 ^ 24 % 256]

/-- MD5 padding: append `0x80`, zero bytes up to 56 mod 64, then the
original bit length as 8 little-endian bytes. -/
def md5Pad (msg : List ℕ) : List ℕ :=
  let len := msg.length
  let z := (120 - ((len + 1) % 64)) % 64
  msg ++ [0x80] ++ List.replicate z 0 ++ md5Le8 ((8 * len) % 2 ^ 64)

/-- Fold the block function over the 16-word chunks of the padded message. -/
def md5Process (st : ℕ × ℕ × ℕ × ℕ) : List ℕ → ℕ × ℕ × ℕ × ℕ
  | w0 :: w1 :: w2 :: w3 :: w4 :: w5 :: w6 :: w7 ::
    w8 :: w9 :: w10 :: w11 :: w12 :: w13 :: w14 :: w15 :: rest =>
    md5Process (md5Block st [w0, w1, w2, w3, w4, w5, w6, w7,
                             w8, w9, w10, w11, w12, w13, w14, w15]) rest
  | _ => st

/-- A hex digit character: `0`-`9` then `a`-`f`. -/
def hexDigitChar (n : ℕ) : Char :=
  if n < 10 then Char.ofNat (48 + n) else Char.ofNat (87 + n)

/-- A byte as two lowercase hex characters. -/
def byteHexChars (b : ℕ) : List Char :=
  [hexDigitChar (b / 16 % 16), hexDigitChar (b % 16)]

/-- `hashlib.md5(bytes).hexdigest()`: the 32-character lowercase hex digest. -/
def md5Hexdigest (msg : List ℕ) : String :=
  let (a, b, c, d) :=
    md5Process (0x67452301, 0xefcdab89, 0x98badcfe, 0x10325476)
      (md5Words (md5Pad msg))
  String.mk ((md5Le4 a ++ md5Le4 b ++ md5Le4 c ++ md5Le4 d).flatMap byteHexChars)

/-- UTF-8 encoding of one scalar value (Lean `Char` excludes surrogates, so
`errors='ignore'` never drops anything here). -/
def utf8Char (c : Char) : List ℕ :=
  let n := c.toNat
  if n < 0x80 then [n]
  else if n < 0x800 then
    [0xc0 ||| (n >>> 6), 0x80 ||| (n &&& 0x3f)]
  else if n < 0x10000 then
    [0xe0 ||| (n >>> 12), 0x80 ||| ((n >>> 6) &&& 0x3f), 0x80 ||| (n &&& 0x3f)]
  else
    [0xf0 ||| (n >>> 18), 0x80 ||| ((n >>> 12) &&& 0x3f),
     0x80 ||| ((n >>> 6) &&& 0x3f), 0x80 ||| (n &&& 0x3f)]

/-- `s.encode('utf-8', errors='ignore')`. -/
def utf8Bytes (s : String) : List ℕ :=
  s.data.flatMap utf8Char

/-- `_hash8(s)` (`video_cut.py` lines 195-197): first 8 hex characters of the
MD5 digest of the UTF-8 encoding of `s`. -/
def _hash8 (s : String) : String :=
  String.mk ((md5Hexdigest (utf8Bytes s)).data.take 8)

/-- `str(root / seg)` for a path object: joining with `/`.  The model assumes
a normalised root and non-empty segments (the only case exercised by the
driver, which passes sanitized uploader/base names). -/
def pathJoin (root seg : String) : String :=
  root ++ "/" ++ seg

/-- `_choose_out_dir(out_root, uploader, base)` (`video_cut.py` lines 199-206):
sanitize the uploader (40 chars) and base name (80 chars), compose
`root/uploader/base`, and if the composed string exceeds 230 characters fall
back to `vid_{hash8(root + raw uploader + raw base)}` for the base segment. -/
def _choose_out_dir (out_root uploader base : String) : String :=
  let uploader_s := _safe_for_filename uploader 40
  let base_s := _safe_for_filename base 80
  let d := pathJoin (pathJoin out_root uploader_s) base_s
  if 230 < d.length then
    pathJoin (pathJoin out_root uploader_s) ("vid_" ++ _hash8 (out_root ++ uploader ++ base))
  else d

/- == Frame filename timestamps (`video_cut.py`, lines 180-185) ============ -/

/-- Decimal digit characters of `n`, most significant first (`"0"` for 0).
Structural on a fuel argument so that it evaluates in the kernel; the fuel
`n + 1` always suffices since `n / 10 < n` for `n ≥ 10`. -/
def natDigitsGo : ℕ → ℕ → List Char
  | 0, _ => []
  | fuel + 1, n =>
    if n < 10 then [hexDigitChar n]
    else natDigitsGo fuel (n / 10) ++ [hexDigitChar (n % 10)]

/-- Decimal digit characters of `n`, as Python `str(n)` for `n ≥ 0`. -/
def natDigits (n : ℕ) : List Char :=
  natDigitsGo (n + 1) n

/-- Python `f"{n:0wd}"` for an integer: minimum-width zero padding (the sign,
present only for negative values, precedes the zeros). -/
def pyFmtInt (w : ℕ) (n : ℤ) : String :=
  if n < 0 then
    String.mk ('-' :: List.replicate (w - 1 - (natDigits (-n).toNat).length) '0'
      ++ natDigits (-n).toNat)
  else
    String.mk (List.replicate (w - (natDigits n.toNat).length) '0' ++ natDigits n.toNat)

/-- `_sec_to_fname_ts(t)` (`video_cut.py` lines 180-185):
`ms = int(round((t - int(t)) * 1000))`, then `HH-MM-SS-mmm` with 2-digit
zero-padded hour/minute/second fields and a 3-digit zero-padded millisecond
field (Python `//`/`%` on ints are floor division and floor modulus). -/
def _sec_to_fname_ts (t : ℚ) : String :=
  let ms := pyRound ((t - (pyIntTrunc t : ℚ)) * 1000)
  let s := Int.fmod (pyIntTrunc t) 60
  let m := Int.fmod (Int.fdiv (pyIntTrunc t) 60) 60
  let h := Int.fdiv (pyIntTrunc t) 3600
  pyFmtInt 2 h ++ "-" ++ pyFmtInt 2 m ++ "-" ++ pyFmtInt 2 s ++ "-" ++ pyFmtInt 3 ms

/-- `f"{ts_name}_{frame_type}.jpg"` (`video_cut.py` line 242). -/
def frameFname (t : ℚ) (frame_type : String) : String :=
  _sec_to_fname_ts t ++ "_" ++ frame_type ++ ".jpg"

/-- The claimed `{HH-MM-SS-mmm}` shape of a frame filename's timestamp part:
exactly 2-2-2-3 digit fields separated by dashes.  This is the spec-side
format predicate the timestamp formatter is compared against. -/
def isTsForm (s : String) : Bool :=
  match s.data with
  | [h1, h2, '-', m1, m2, '-', s1, s2, '-', x1, x2, x3] =>
    h1.isDigit && h2.isDigit && m1.isDigit && m2.isDigit &&
    s1.isDigit && s2.isDigit && x1.isDigit && x2.isDigit && x3.isDigit
  | _ => false

/- == Per-video sampling driver (`video_cut.py`, lines 208-264) ============ -/

/-- One parsed subtitle cue (`video_cut.py` lines 25-29). -/
structure SubtitleEntry where
  start : ℚ
  «end» : ℚ
  text : String
deriving DecidableEq

/-- The I/O outcome the filesystem/ffmpeg oracle supplies for one frame
time point: whether the primary `extract_frame` call succeeds, whether the
driver-level retry call (at `max(0, t - 0.2)`) would succeed, and the result
of `calculate_image_hash` on the extracted image. -/
structure FrameOutcome where
  okPrimary : Bool
  okRetry : Bool
  hash : Option String
deriving DecidableEq

/-- The driver's per-video mutable state (`video_cut.py` lines 225-227):
the set of accepted fingerprints (as the list of its elements) and the two
counters. -/
structure DriverState where
  saved_hashes : List String
  saved_count : ℕ
  skipped_count : ℕ
deriving DecidableEq

/-- Observable filesystem events of the driver: an `extract_frame`
invocation at a timestamp, a frame kept on disk, a frame deleted as a
near-duplicate. -/
inductive FrameEvent where
  | attempted (t : ℚ)
  | savedFrame (t : ℚ) (frame_type : String)
  | deletedFrame (t : ℚ) (frame_type : String)
deriving DecidableEq

/-- The overall success flag of `video_cut.py` lines 245-247:
`ok = extract_frame(video_path, t, out_img)`, and if that failed and
`t > 0`, one retry `ok = extract_frame(video_path, max(0.0, t - 0.2), out_img)`. -/
def extractOk (o : FrameOutcome) (t : ℚ) : Bool :=
  o.okPrimary || (decide (0 < t) && o.okRetry)

/-- The `extract_frame` invocations made for one time point
(`video_cut.py` lines 245-247): the primary attempt at `t`, plus exactly one
retry at `max(0.0, t - 0.2)` when the primary attempt failed and `t > 0`. -/
def pointAttempts (o : FrameOutcome) (t : ℚ) : List FrameEvent :=
  if o.okPrimary then [.attempted t]
  else if 0 < t then [.attempted t, .attempted (max 0 (t - 1/5))]
  else [.attempted t]

/-- Processing of one `(t, frame_type)` time point (`video_cut.py` lines
240-262): extract (with retry), then either delete the frame as similar, or
keep it — recording its fingerprint when the hash computation yields a
truthy value, and counting it as saved in every kept case. -/
def processPoint (thr : ℤ) (oracle : ℚ → String → FrameOutcome)
    (st : DriverState) (pt : ℚ × String) : DriverState × List FrameEvent :=
  let t := pt.1
  let frame_type := pt.2
  let o := oracle t frame_type
  let atts := pointAttempts o t
  if extractOk o t then
    if is_similar_to_previous o.hash st.saved_hashes thr then
      ({ st with skipped_count := st.skipped_count + 1 },
       atts ++ [.deletedFrame t frame_type])
    else
      match o.hash with
      | some h =>
        if h.data.isEmpty then
          ({ st with saved_count := st.saved_count + 1 },
           atts ++ [.savedFrame t frame_type])
        else
          ({ st with saved_hashes := h :: st.saved_hashes,
                     saved_count := st.saved_count + 1 },
           atts ++ [.savedFrame t frame_type])
      | none =>
        ({ st with saved_count := st.saved_count + 1 },
         atts ++ [.savedFrame t frame_type])
  else (st, atts)

/-- `safe_end` for one entry (`video_cut.py` line 230):
`max(duration - 0.01, 0.0) if duration > 0 else max(e.end, e.start)`. -/
def safeEnd (duration : ℚ) (e : SubtitleEntry) : ℚ :=
  if 0 < duration then max (duration - 1/100) 0 else max e.«end» e.start

/-- `start_time = max(0.0, min(e.start, safe_end))` (`video_cut.py` line 231). -/
def clampedStart (duration : ℚ) (e : SubtitleEntry) : ℚ :=
  max 0 (min e.start (safeEnd duration e))

/-- `end_time = max(0.0, min(e.end, safe_end))` (`video_cut.py` line 232). -/
def clampedEnd (duration : ℚ) (e : SubtitleEntry) : ℚ :=
  max 0 (min e.«end» (safeEnd duration e))

/-- `mid_time = max(0.0, min((start_time + end_time) / 2.0, safe_end))`
(`video_cut.py` line 233). -/
def clampedMid (duration : ℚ) (e : SubtitleEntry) : ℚ :=
  max 0 (min ((clampedStart duration e + clampedEnd duration e) / 2) (safeEnd duration e))

/-- The time points the driver samples for one entry (`video_cut.py` lines
235-239): none at all when the clamped start lies inside the 10-second
warm-up window (`if start_time < 10.0: continue`), otherwise the
start/mid/end triple. -/
def entryTimePoints (duration : ℚ) (e : SubtitleEntry) : List (ℚ × String) :=
  if clampedStart duration e < 10 then []
  else [(clampedStart duration e, "start"), (clampedMid duration e, "mid"),
        (clampedEnd duration e, "end")]

/-- Processing of one subtitle entry: fold `processPoint` over the entry's
time points, accumulating emitted events. -/
def processEntry (thr : ℤ) (oracle : ℚ → String → FrameOutcome) (duration : ℚ)
    (st : DriverState) (e : SubtitleEntry) : DriverState × List FrameEvent :=
  (entryTimePoints duration e).foldl
    (fun acc pt =>
      let r := processPoint thr oracle acc.1 pt
      (r.1, acc.2 ++ r.2))
    (st, [])

/-- The pure core of `process_one_video` (`video_cut.py` lines 208-264),
starting after subtitle parsing and duration probing: iterate over
`entries[:total]` where `total = len(entries) if max_subs <= 0 else
min(len(entries), max_subs)`, threading the per-video state. -/
def process_one_video (duration : ℚ) (entries : List SubtitleEntry)
    (max_subs : ℤ) (thr : ℤ) (oracle : ℚ → String → FrameOutcome) :
    DriverState × List FrameEvent :=
  let total := if max_subs ≤ 0 then entries.length else min entries.length max_subs.toNat
  (entries.take total).foldl
    (fun acc e =>
      let r := processEntry thr oracle duration acc.1 e
      (r.1, acc.2 ++ r.2))
    (⟨[], 0, 0⟩, [])

/- == Subtitle parser (`video_cut.py`, lines 41-115) ======================= -/

/-- Does `p` occur as the first characters of `l`? -/
def listStartsWith (l p : List Char) : Bool :=
  l.take p.length == p

/-- Digit characters to the natural number they denote. -/
def digitsToNat (ds : List Char) : ℕ :=
  ds.foldl (fun a c => a * 10 + (c.toNat - 48)) 0

/-- Python `int(s)` on a stripped character sequence: optional sign followed
by at least one digit, otherwise failure (`ValueError`). -/
def pyParseInt (l : List Char) : Option ℤ :=
  match pyStrip l with
  | '+' :: ds => if !ds.isEmpty && ds.all Char.isDigit then some (digitsToNat ds : ℤ) else none
  | '-' :: ds => if !ds.isEmpty && ds.all Char.isDigit then some (-(digitsToNat ds : ℤ)) else none
  | ds => if !ds.isEmpty && ds.all Char.isDigit then some (digitsToNat ds : ℤ) else none

/-- The exponent suffix of a Python float literal: optional sign and at
least one digit. -/
def parseExpPart (l : List Char) : Option ℤ :=
  match l with
  | '+' :: ds => if !ds.isEmpty && ds.all Char.isDigit then some (digitsToNat ds : ℤ) else none
  | '-' :: ds => if !ds.isEmpty && ds.all Char.isDigit then some (-(digitsToNat ds : ℤ)) else none
  | ds => if !ds.isEmpty && ds.all Char.isDigit then some (digitsToNat ds : ℤ) else none

/-- An unsigned Python float literal to its exact rational value:
`digits`, `digits.digits`, `digits.`, `.digits`, with an optional
`e`/`E`-exponent.  The special values `nan`/`inf`/`infinity` (also accepted
by Python `float()`) have no rational value and lie outside this model;
see the C5 correction for the consequence of the NaN path. -/
def parseUnsignedFloat (l : List Char) : Option ℚ :=
  let intPart := l.takeWhile Char.isDigit
  let rest := l.dropWhile Char.isDigit
  let fracPart :=
    match rest with
    | '.' :: r => r.takeWhile Char.isDigit
    | _ => []
  let rest2 :=
    match rest with
    | '.' :: r => r.dropWhile Char.isDigit
    | _ => rest
  if intPart.isEmpty && fracPart.isEmpty then none
  else
    let mant : ℚ :=
      (digitsToNat intPart : ℚ) + (digitsToNat fracPart : ℚ) / (10 ^ fracPart.length : ℚ)
    match rest2 with
    | [] => some mant
    | 'e' :: r => (parseExpPart r).map fun ex => mant * (10 : ℚ) ^ ex
    | 'E' :: r => (parseExpPart r).map fun ex => mant * (10 : ℚ) ^ ex
    | _ => none

/-- Python `float(s)`: strip, optional sign, unsigned float literal.  The
result is the literal's exact rational value; the source stores it as an
IEEE binary64 double (see `roundB64`), which represents it exactly for the
timestamp magnitudes the claims quantify over. -/
def pyParseFloat (l : List Char) : Option ℚ :=
  match pyStrip l with
  | '+' :: rest => parseUnsignedFloat rest
  | '-' :: rest => (parseUnsignedFloat rest).map (fun q => -q)
  | rest => parseUnsignedFloat rest

/-- `_parse_time_to_seconds(ts)` (`video_cut.py` lines 41-54): strip,
normalise `,` to `.`, split on `:`; three components are `H:M:S`, two are
`M:S`, otherwise the whole string is a raw seconds value; any conversion
failure degrades to `0.0`. -/
def _parse_time_to_seconds (ts : List Char) : ℚ :=
  let ts2 := (pyStrip ts).map fun c => if c = ',' then '.' else c
  match ts2.splitOnP (· == ':') with
  | [h, m, s] =>
    match pyParseInt h, pyParseInt m, pyParseFloat s with
    | some hv, some mv, some sv => (hv : ℚ) * 3600 + (mv : ℚ) * 60 + sv
    | _, _, _ => 0
  | [m, s] =>
    match pyParseInt m, pyParseFloat s with
    | some mv, some sv => (mv : ℚ) * 60 + sv
    | _, _ => 0
  | _ => (pyParseFloat ts2).getD 0

/-- The normalisation applied to every emitted cue (`video_cut.py` lines
86-87 and 107-108), with the addition taken exactly:
`if end_s <= start_s: end_s = start_s + 0.5`.  The source computes
`start_s + 0.5` in IEEE binary64 arithmetic, which agrees with this exact
version whenever the sum is representable (in particular for
`start_s < 2^52`); `normEndFloat` below is the float-faithful version, and
the C5 correction exhibits where the two differ. -/
def normEnd (start_s end_s : ℚ) : ℚ :=
  if end_s ≤ start_s then start_s + 1/2 else end_s

/-- Binary64 round-to-nearest-even of a positive rational in the normal
range: the unit in the last place of `q` is `2 ^ (Int.log 2 q - 52)` (53
significand bits), and `pyRound` is round-half-to-even. -/
def roundB64Pos (q : ℚ) : ℚ :=
  (pyRound (q / 2 ^ (Int.log 2 q - 52)) : ℚ) * 2 ^ (Int.log 2 q - 52)

/-- CPython floats are IEEE binary64 doubles: a real result is rounded to
the nearest representable double, ties to even.  Finite doubles are
modelled by their exact rational values; overflow to infinity (above
`2^1024`) and subnormal underflow (below `2^-1022`) lie outside the
timestamp ranges of interest and are not modelled. -/
def roundB64 (q : ℚ) : ℚ :=
  if 0 < q then roundB64Pos q
  else if q < 0 then -roundB64Pos (-q)
  else 0

/-- `end_s = start_s + 0.5` (`video_cut.py` lines 86-87 and 107-108) as the
source actually computes it, with IEEE binary64 addition: the exact sum
rounded to the nearest representable double.  Both branches' values are
exact doubles at the inputs the C5 correction exhibits. -/
def normEndFloat (start_s end_s : ℚ) : ℚ :=
  if end_s ≤ start_s then roundB64 (start_s + 1/2) else end_s

/-- Python `time_line.split("-->")`: split on every non-overlapping
occurrence of `-->`, scanning left to right. -/
def splitOnArrowGo : List Char → List Char → List (List Char)
  | '-' :: '-' :: '>' :: rest, acc => acc.reverse :: splitOnArrowGo rest []
  | c :: rest, acc => splitOnArrowGo rest (c :: acc)
  | [], acc => [acc.reverse]

/-- Python `s.split("-->")` on a char list. -/
def splitOnArrow (l : List Char) : List (List Char) :=
  splitOnArrowGo l []

/-- Continuation-passing matcher for the regex fragment `\d{1,3}` followed by
the rest of the pattern (`k`); greedy with backtracking. -/
def fracThen (l : List Char) (k : List Char → Bool) : Bool :=
  match l with
  | d1 :: r1 =>
    d1.isDigit &&
      (match r1 with
       | d2 :: r2 =>
         if d2.isDigit then
           (match r2 with
            | d3 :: r3 => if d3.isDigit then (k r3 || k r2 || k r1) else (k r2 || k r1)
            | [] => k r2 || k r1)
         else k r1
       | [] => k r1)
  | [] => false

/-- Matcher for the regex fragment `\d{2}:\d{2}[\.,]\d{1,3}` followed by `k`. -/
def hmsThen (l : List Char) (k : List Char → Bool) : Bool :=
  match l with
  | a :: b :: ':' :: c :: d :: sep :: rest =>
    a.isDigit && b.isDigit && c.isDigit && d.isDigit &&
      (sep == '.' || sep == ',') && fracThen rest k
  | _ => false

/-- Matcher for the regex fragment `(\d{1,2}:)?\d{2}:\d{2}[\.,]\d{1,3}`
followed by `k`: try a 2-digit hour group, then a 1-digit hour group, then
no hour group, as a backtracking regex engine does. -/
def optHourThen (l : List Char) (k : List Char → Bool) : Bool :=
  (match l with
   | a :: b :: ':' :: rest => a.isDigit && b.isDigit && hmsThen rest k
   | _ => false) ||
  (match l with
   | a :: ':' :: rest => a.isDigit && hmsThen rest k
   | _ => false) ||
  hmsThen l k

/-- Matcher for the regex fragment ` \-\-\> ` followed by `k`. -/
def arrowThen (l : List Char) (k : List Char → Bool) : Bool :=
  match l with
  | ' ' :: '-' :: '-' :: '>' :: ' ' :: rest => k rest
  | _ => false

/-- `time_re.match(line)` (`video_cut.py` line 62): anchored prefix match of
`^(\d{1,2}:)?\d{2}:\d{2}[\.,]\d{1,3} \-\-\> (\d{1,2}:)?\d{2}:\d{2}[\.,]\d{1,3}`. -/
def timeRe (line : String) : Bool :=
  optHourThen line.data fun rest =>
    arrowThen rest fun rest2 =>
      optHourThen rest2 fun _ => true

/-- The cue-scanning loop of `_parse_vtt` (`video_cut.py` lines 63-88): skip
lines until one matches `time_re`; split it on `-->` (a `ValueError` from
unpacking, i.e. not exactly two parts, skips the line); collect the
following non-blank lines as cue text; skip the blank separator; normalise
the end time; continue.  The loop is structural on a fuel argument; every
iteration consumes at least the matched (or skipped) head line, so
`lines.length + 1` fuel always suffices. -/
def parseVttLoop : ℕ → List String → List SubtitleEntry
  | 0, _ => []
  | _, [] => []
  | fuel + 1, l :: rest =>
    if timeRe l then
      match splitOnArrow l.data with
      | [left, right] =>
        let start_s := _parse_time_to_seconds (pyStrip left)
        let end_s := _parse_time_to_seconds (((pyStrip right).splitOnP (· == ' ')).headD [])
        let textLines := rest.takeWhile fun s => !(pyStrip s.data).isEmpty
        let rest2 := (rest.dropWhile fun s => !(pyStrip s.data).isEmpty).dropWhile
                       fun s => (pyStrip s.data).isEmpty
        let text := pyStrip (List.intercalate ['\n'] (textLines.map String.data))
        ⟨start_s, normEnd start_s end_s, String.mk text⟩ :: parseVttLoop fuel rest2
      | _ => parseVttLoop fuel rest
    else parseVttLoop fuel rest

/-- `_parse_vtt(path)` (`video_cut.py` lines 56-88) on the file's lines
(trailing newlines removed, as `ln.rstrip("\n")` leaves them): drop a
leading `WEBVTT` header line, then run the cue-scanning loop. -/
def _parse_vtt (lines : List String) : List SubtitleEntry :=
  let body :=
    match lines with
    | [] => []
    | l :: rest =>
      if listStartsWith ((pyStrip l.data).map Char.toUpper) ['W', 'E', 'B', 'V', 'T', 'T']
      then rest else l :: rest
  parseVttLoop (body.length + 1) body

/-- Python `ln.strip("﻿")`: drop leading and trailing BOM characters. -/
def pyStripFeff (s : String) : List Char :=
  ((s.data.dropWhile (· == '﻿')).reverse.dropWhile (· == '﻿')).reverse

/-- Result of processing one SRT block: skipped, an emitted entry, or an
uncaught `ValueError` (a time line containing two or more `-->`), which
aborts the whole parse. -/
inductive SrtBlockResult where
  | skip
  | err
  | entry (e : SubtitleEntry)
deriving DecidableEq

/-- One block of `_parse_srt` (`video_cut.py` lines 95-108): keep the
non-blank lines (BOM-stripped), optionally drop an all-digit index line,
require a `-->` time line, parse both sides, normalise the end time. -/
def parseSrtBlock (block : List String) : SrtBlockResult :=
  let lines := (block.filter fun ln => !(pyStrip ln.data).isEmpty).map pyStripFeff
  match lines with
  | [] => .skip
  | first :: restL =>
    let isIdx := !first.isEmpty && first.all Char.isDigit
    let timeLine := if isIdx then restL.head? else some first
    let textLines := if isIdx then restL.drop 1 else restL
    match timeLine with
    | none => .skip
    | some time_line =>
      match splitOnArrow time_line with
      | [_] => .skip
      | [left, right] =>
        let start_s := _parse_time_to_seconds (pyStrip left)
        let end_s := _parse_time_to_seconds (pyStrip right)
        let text := pyStrip (List.intercalate ['\n'] textLines)
        .entry ⟨start_s, normEnd start_s end_s, String.mk text⟩
      | _ => .err

/-- The block loop of `_parse_srt`: `none` models the uncaught `ValueError`
propagating out of the parse. -/
def parseSrtBlocks : List (List String) → Option (List SubtitleEntry)
  | [] => some []
  | b :: bs =>
    match parseSrtBlock b with
    | .err => none
    | .skip => parseSrtBlocks bs
    | .entry e => (parseSrtBlocks bs).map fun es => e :: es

/-- `_parse_srt(path)` (`video_cut.py` lines 90-109) on the file's lines:
`re.split(r"\r?\n\r?\n+", content)` splits the content into blocks at runs
of empty lines, then each block is processed independently. -/
def _parse_srt (lines : List String) : Option (List SubtitleEntry) :=
  parseSrtBlocks (lines.splitOnP fun s => s == "")

end VideoCut

namespace Pipeline

/- == Incremental orchestrator (`pipeline.py`, lines 14-29 and 62-91) ====== -/

/-- One manifest record as far as the orchestrator consumes it
(`rec.get("video_path")`, `rec.get("subtitle_path")`,
`rec.get("created_at", 0)`); a missing key is `none`.  `created_at` is
integer-valued here, as the manifest's epoch-second timestamps are. -/
structure ManifestRecord where
  video_path : Option String
  subtitle_path : Option String
  created_at : Option ℤ
deriving DecidableEq

/-- One line of the manifest file as `_read_new_records` classifies it:
blank (skipped before parsing), malformed (a `json.loads` failure, skipped),
or a parsed record. -/
inductive ManifestLine where
  | blank
  | malformed
  | record (rec : ManifestRecord)
deriving DecidableEq

/-- `_read_new_records(manifest_path, since_ts)` (`pipeline.py` lines 14-29):
keep, in order, every parsed record whose `created_at` (default 0) is
`>= since_ts`. -/
def _read_new_records (lines : List ManifestLine) (since_ts : ℤ) : List ManifestRecord :=
  lines.filterMap fun l =>
    match l with
    | .record rec => if since_ts ≤ rec.created_at.getD 0 then some rec else none
    | _ => none

/-- The well-formed records of a manifest, in file order — the spec-side
notion the claim compares `_read_new_records` against. -/
def wellFormedRecords (lines : List ManifestLine) : List ManifestRecord :=
  lines.filterMap fun l =>
    match l with
    | .record rec => some rec
    | _ => none

/-- The `(video_path, subtitle_path)` pairs actually fed to
`video_cut.process_one_video` by one run of `main()` (`pipeline.py` lines
62-91): after the early `if not new_records: return`, every new record with
both fields present (truthy) and both paths existing on disk (`pathExists`
is the filesystem oracle). -/
def processedVideos (lines : List ManifestLine) (start_ts : ℤ)
    (pathExists : String → Bool) : List (String × String) :=
  let new_records := _read_new_records lines start_ts
  if new_records.isEmpty then []
  else
    new_records.filterMap fun rec =>
      match rec.video_path, rec.subtitle_path with
      | some v, some s =>
        if !pyStrTruthy v || !pyStrTruthy s then none
        else if pathExists v && pathExists s then some (v, s)
        else none
      | _, _ => none

end Pipeline

/- ========================================================================
   Claim theorems
   ======================================================================== -/

namespace VideoCut

/-- A failed hash computation is never similar (`video_cut.py` lines 164-165). -/
theorem is_similar_none (prev : List String) (thr : ℤ) :
    is_similar_to_previous none prev thr = false := by
  unfold is_similar_to_previous
  split <;> rfl

/-- C1: for a candidate whose fingerprint computation succeeds (a real phash
string is non-empty), `is_similar_to_previous` is true iff some prior
fingerprint is within Hamming distance `threshold`; in particular a single
prior at distance exactly `threshold` is similar, and one at distance
`threshold + 1` is not. -/
theorem is_similar_to_previous_spec (h : String) (prev : List String) (thr : ℤ)
    (hne : h ≠ "") :
    (is_similar_to_previous (some h) prev thr = true ↔
      ∃ p ∈ prev, (hammingDist h p : ℤ) ≤ thr) ∧
    (∀ p, (hammingDist h p : ℤ) = thr →
      is_similar_to_previous (some h) [p] thr = true) ∧
    (∀ p, (hammingDist h p : ℤ) = thr + 1 →
      is_similar_to_previous (some h) [p] thr = false) := by
  have hd : h.data.isEmpty = false := by
    cases hW : h.data with
    | nil =>
      exact absurd (by cases h with | mk d => cases hW; rfl) hne
    | cons c cs => rfl
  refine ⟨?_, ?_, ?_⟩
  · unfold is_similar_to_previous
    cases prev with
    | nil => simp
    | cons p ps => simp [hd]
  · intro p hp
    unfold is_similar_to_previous
    simp [hd, hp]
  · intro p hp
    unfold is_similar_to_previous
    simp [hd, hp]

/-- Witness for C1 at concrete inputs. -/
theorem is_similar_to_previous_spec_witness :
    ("abcd" : String) ≠ "" ∧
    (is_similar_to_previous (some "abcd") ["abzz"] 2 = true ↔
      ∃ p ∈ ["abzz"], (hammingDist "abcd" p : ℤ) ≤ 2) :=
  ⟨by decide, (is_similar_to_previous_spec "abcd" ["abzz"] 2 (by decide)).1⟩

/-- C10: with no prior fingerprints the filter answers `false` for every
candidate (the result does not depend on the hash argument, mirroring the
early return before any hash computation), so the first successfully
extracted frame of a video is saved and never deleted as a near-duplicate. -/
theorem first_frame_always_kept :
    (∀ (current_hash : Option String) (thr : ℤ),
      is_similar_to_previous current_hash [] thr = false) ∧
    (∀ (thr : ℤ) (oracle : ℚ → String → FrameOutcome) (t : ℚ) (tag : String),
      extractOk (oracle t tag) t = true →
      (processPoint thr oracle ⟨[], 0, 0⟩ (t, tag)).1.saved_count = 1 ∧
      (processPoint thr oracle ⟨[], 0, 0⟩ (t, tag)).1.skipped_count = 0 ∧
      (processPoint thr oracle ⟨[], 0, 0⟩ (t, tag)).2
        = pointAttempts (oracle t tag) t ++ [.savedFrame t tag]) := by
  constructor
  · intro current_hash thr; rfl
  · intro thr oracle t tag hok
    unfold processPoint
    have hsim : is_similar_to_previous (oracle t tag).hash
        (DriverState.saved_hashes ⟨[], 0, 0⟩) thr = false := by
      cases hh : (oracle t tag).hash with
      | none => exact is_similar_none _ _
      | some h => rfl
    simp only [hok, if_true, hsim, Bool.false_eq_true, if_false]
    cases hh : (oracle t tag).hash with
    | none => simp
    | some h =>
      by_cases he : h.data.isEmpty <;> simp [hh, he]

/-- Witness for C10's second part at concrete inputs. -/
theorem first_frame_always_kept_witness :
    extractOk ((fun _ _ => ⟨true, false, some "abcd"⟩ : ℚ → String → FrameOutcome) 1 "start") 1
      = true ∧
    (processPoint 5 (fun _ _ => ⟨true, false, some "abcd"⟩) ⟨[], 0, 0⟩
      (1, "start")).1.saved_count = 1 :=
  ⟨rfl, (first_frame_always_kept.2 5 (fun _ _ => ⟨true, false, some "abcd"⟩) 1 "start" rfl).1⟩

/-- C3: a successfully extracted frame whose fingerprint computation fails is
kept (no deletion event), its state change is exactly `saved_count + 1`
(fingerprint set and skip counter untouched), mirroring `video_cut.py`
lines 249-262. -/
theorem hash_failure_keeps_frame (thr : ℤ) (oracle : ℚ → String → FrameOutcome)
    (st : DriverState) (t : ℚ) (tag : String)
    (hok : extractOk (oracle t tag) t = true)
    (hh : (oracle t tag).hash = none) :
    processPoint thr oracle st (t, tag)
      = ({ st with saved_count := st.saved_count + 1 },
         pointAttempts (oracle t tag) t ++ [.savedFrame t tag]) := by
  unfold processPoint
  simp only [hok, if_true, hh, is_similar_none, Bool.false_eq_true, if_false]

/-- Witness for C3 at concrete inputs. -/
theorem hash_failure_keeps_frame_witness :
    extractOk ((fun _ _ => ⟨true, true, none⟩ : ℚ → String → FrameOutcome) 2 "mid") 2 = true ∧
    ((fun _ _ => ⟨true, true, none⟩ : ℚ → String → FrameOutcome) 2 "mid").hash = none ∧
    processPoint 5 (fun _ _ => ⟨true, true, none⟩) ⟨["aa"], 3, 1⟩ (2, "mid")
      = (⟨["aa"], 4, 1⟩,
         pointAttempts ((fun _ _ => ⟨true, true, none⟩ : ℚ → String → FrameOutcome) 2 "mid") 2
           ++ [.savedFrame 2 "mid"]) :=
  ⟨rfl, rfl, hash_failure_keeps_frame 5 (fun _ _ => ⟨true, true, none⟩) ⟨["aa"], 3, 1⟩ 2 "mid" rfl rfl⟩

/-- C6: the driver makes one primary `extract_frame` attempt at `t`; on
primary failure with `t > 0` it makes exactly one retry at `max(0, t - 0.2)`
and the overall success is the retry's outcome; on primary failure with
`t = 0` there is no retry and the point fails; and a failed point leaves the
state untouched (processing continues with only the attempt events). -/
theorem extract_frame_retry_spec (thr : ℤ) (oracle : ℚ → String → FrameOutcome)
    (st : DriverState) (t : ℚ) (tag : String) :
    ((oracle t tag).okPrimary = true →
      pointAttempts (oracle t tag) t = [.attempted t] ∧
      extractOk (oracle t tag) t = true) ∧
    ((oracle t tag).okPrimary = false → 0 < t →
      pointAttempts (oracle t tag) t = [.attempted t, .attempted (max 0 (t - 1/5))] ∧
      extractOk (oracle t tag) t = (oracle t tag).okRetry) ∧
    ((oracle t tag).okPrimary = false → t = 0 →
      pointAttempts (oracle t tag) t = [.attempted 0] ∧
      extractOk (oracle t tag) t = false) ∧
    (extractOk (oracle t tag) t = false →
      processPoint thr oracle st (t, tag) = (st, pointAttempts (oracle t tag) t)) := by
  refine ⟨?_, ?_, ?_, ?_⟩
  · intro hp
    unfold pointAttempts extractOk
    simp [hp]
  · intro hp ht
    unfold pointAttempts extractOk
    simp [hp, ht]
  · intro hp ht
    subst ht
    unfold pointAttempts extractOk
    simp [hp]
  · intro hok
    unfold processPoint
    simp [hok]

/-- Witness for C6 at concrete inputs (primary failure at `t = 3`, retry
succeeding at `max(0, 3 - 0.2)`). -/
theorem extract_frame_retry_spec_witness :
    ((fun _ _ => ⟨false, true, none⟩ : ℚ → String → FrameOutcome) 3 "end").okPrimary = false ∧
    (0:ℚ) < 3 ∧
    pointAttempts ((fun _ _ => ⟨false, true, none⟩ : ℚ → String → FrameOutcome) 3 "end") 3
      = [.attempted 3, .attempted (max 0 (3 - 1/5))] :=
  ⟨rfl, by norm_num,
    ((extract_frame_retry_spec 5 (fun _ _ => ⟨false, true, none⟩) ⟨[], 0, 0⟩ 3 "end").2.1
      rfl (by norm_num)).1⟩

/-- Every character of the collapsed string is the collapsing space or a
non-whitespace character of the input. -/
theorem mem_collapseWsAux : ∀ (b : Bool) (l : List Char) (c : Char),
    c ∈ collapseWsAux b l → c = ' ' ∨ (c ∈ l ∧ isPySpace c = false) := by
  intro b l
  induction l generalizing b with
  | nil => intro c h; simp [collapseWsAux] at h
  | cons x xs ih =>
    intro c h
    cases hx : isPySpace x with
    | false =>
      simp only [collapseWsAux, hx, Bool.false_eq_true, if_false, List.mem_cons] at h
      rcases h with rfl | h
      · exact Or.inr ⟨List.mem_cons_self .., hx⟩
      · rcases ih false c h with h' | ⟨hmem, hsp⟩
        · exact Or.inl h'
        · exact Or.inr ⟨List.mem_cons_of_mem x hmem, hsp⟩
    | true =>
      cases b with
      | true =>
        simp only [collapseWsAux, hx, if_true] at h
        rcases ih true c h with h' | ⟨hmem, hsp⟩
        · exact Or.inl h'
        · exact Or.inr ⟨List.mem_cons_of_mem x hmem, hsp⟩
      | false =>
        simp only [collapseWsAux, hx, if_true, Bool.false_eq_true, if_false,
          List.mem_cons] at h
        rcases h with rfl | h
        · exact Or.inl rfl
        · rcases ih true c h with h' | ⟨hmem, hsp⟩
          · exact Or.inl h'
          · exact Or.inr ⟨List.mem_cons_of_mem x hmem, hsp⟩

/-- The collapsed string never begins with a space while inside a run. -/
theorem collapseWsAux_true_head : ∀ (l : List Char) (c : Char) (cs : List Char),
    collapseWsAux true l = c :: cs → isPySpace c = false := by
  intro l
  induction l with
  | nil => intro c cs h; simp [collapseWsAux] at h
  | cons x xs ih =>
    intro c cs h
    cases hx : isPySpace x with
    | false =>
      simp only [collapseWsAux, hx, Bool.false_eq_true, if_false, List.cons.injEq] at h
      rcases h with ⟨rfl, -⟩
      exact hx
    | true =>
      simp only [collapseWsAux, hx, if_true] at h
      exact ih c cs h

/-- No two adjacent spaces occur in the collapsed string. -/
theorem chain'_collapseWsAux : ∀ (b : Bool) (l : List Char),
    List.Chain' (fun a b => ¬(a = ' ' ∧ b = ' ')) (collapseWsAux b l) := by
  intro b l
  induction l generalizing b with
  | nil => simp [collapseWsAux]
  | cons x xs ih =>
    cases hx : isPySpace x with
    | false =>
      simp only [collapseWsAux, hx, Bool.false_eq_true, if_false]
      refine List.Chain'.cons' (ih false) ?_
      intro y hy
      rintro ⟨rfl, -⟩
      exact absurd hx (by decide)
    | true =>
      cases b with
      | true => simpa [collapseWsAux, hx] using ih true
      | false =>
        simp only [collapseWsAux, hx, if_true, Bool.false_eq_true, if_false]
        refine List.Chain'.cons' (ih true) ?_
        intro y hy
        cases hW : collapseWsAux true xs with
        | nil => rw [hW] at hy; simp at hy
        | cons z zs =>
          rw [hW] at hy
          simp only [List.head?_cons, Option.mem_def, Option.some.injEq] at hy
          subst hy
          rintro ⟨-, rfl⟩
          exact absurd (collapseWsAux_true_head xs ' ' zs hW) (by decide)

/-- Membership weakening through `pyStrip`. -/
theorem mem_pyStrip {c : Char} {l : List Char} (h : c ∈ pyStrip l) : c ∈ l := by
  unfold pyStrip at h
  rw [List.mem_reverse] at h
  have h2 := (List.dropWhile_suffix isPySpace).sublist.subset h
  rw [List.mem_reverse] at h2
  exact (List.dropWhile_suffix isPySpace).sublist.subset h2

/-- Membership weakening through `rstripSpaceDot`. -/
theorem mem_rstripSpaceDot {c : Char} {l : List Char} (h : c ∈ rstripSpaceDot l) : c ∈ l := by
  unfold rstripSpaceDot at h
  rw [List.mem_reverse] at h
  have h2 := (List.dropWhile_suffix _).sublist.subset h
  rw [List.mem_reverse] at h2
  exact h2

/-- No character of `replaceIllegal l` is an illegal filename character. -/
theorem mem_replaceIllegal {c : Char} {l : List Char} (h : c ∈ replaceIllegal l) :
    isIllegalWinChar c = false := by
  unfold replaceIllegal at h
  rw [List.mem_map] at h
  obtain ⟨a, -, rfl⟩ := h
  cases ha : isIllegalWinChar a with
  | false => simp [ha]
  | true => simp only [ha, if_true]; decide

/-- Characters of the sanitizer's output are the collapsing space or
non-whitespace characters of the illegal-replaced input. -/
theorem mem_safe_for_filename {c : Char} {name : String} {max_len : ℕ}
    (h : c ∈ (_safe_for_filename name max_len).data) :
    c = ' ' ∨ (c ∈ replaceIllegal name.data ∧ isPySpace c = false) := by
  unfold _safe_for_filename at h
  simp only at h
  exact mem_collapseWsAux false _ c (mem_pyStrip (mem_rstripSpaceDot (List.take_subset _ _ h)))

/-- The symmetric no-double-space chain survives reversal. -/
theorem chain'_noDouble_reverse {l : List Char}
    (h : List.Chain' (fun a b => ¬(a = ' ' ∧ b = ' ')) l) :
    List.Chain' (fun a b => ¬(a = ' ' ∧ b = ' ')) l.reverse := by
  rw [List.chain'_reverse]
  exact h.imp fun a b hab hc => hab ⟨hc.2, hc.1⟩

/-- C8: the sanitizer's output contains no illegal character; its length is
bounded by the truncation limit; every whitespace character left in it is a
plain space and no two spaces are adjacent (whitespace runs collapsed); and
the resolver applies it with limit 40 to the uploader and 80 to the base
name, in both the normal and the hash-fallback shape. -/
theorem safe_for_filename_spec (name : String) (max_len : ℕ) (r u b : String) :
    ((_safe_for_filename name max_len).data.all fun c => !isIllegalWinChar c) = true ∧
    (_safe_for_filename name max_len).length ≤ max_len ∧
    ((_safe_for_filename name max_len).data.all fun c => !isPySpace c || c == ' ') = true ∧
    List.Chain' (fun x y => ¬(x = ' ' ∧ y = ' ')) (_safe_for_filename name max_len).data ∧
    (_choose_out_dir r u b
        = pathJoin (pathJoin r (_safe_for_filename u 40)) (_safe_for_filename b 80) ∨
     _choose_out_dir r u b
        = pathJoin (pathJoin r (_safe_for_filename u 40))
            ("vid_" ++ _hash8 (r ++ u ++ b))) := by
  refine ⟨?_, ?_, ?_, ?_, ?_⟩
  · rw [List.all_eq_true]
    intro c hc
    rcases mem_safe_for_filename hc with rfl | ⟨hmem, -⟩
    · decide
    · simp [mem_replaceIllegal hmem]
  · unfold _safe_for_filename
    simp only [String.length_mk, List.length_take]
    exact Nat.min_le_left _ _
  · rw [List.all_eq_true]
    intro c hc
    rcases mem_safe_for_filename hc with rfl | ⟨-, hsp⟩
    · decide
    · simp [hsp]
  · have h0 := chain'_collapseWsAux false (replaceIllegal name.data)
    have h1 := h0.suffix (List.dropWhile_suffix isPySpace)
    have h2 := chain'_noDouble_reverse h1
    have h3 := h2.suffix (List.dropWhile_suffix isPySpace)
    have h4 := chain'_noDouble_reverse h3
    have h5 := chain'_noDouble_reverse h4
    have h6 := h5.suffix (List.dropWhile_suffix fun c => c = ' ' || c = '.')
    have h7 := chain'_noDouble_reverse h6
    exact h7.take max_len
  · simp only [_choose_out_dir]
    split
    · exact Or.inr rfl
    · exact Or.inl rfl

/-- C4: when the composed `root/uploader/base` string exceeds 230
characters, the resolver replaces the base segment with `vid_` followed by
the first 8 hex characters of the MD5 digest of `root + raw uploader + raw
base`; and the resolver is a pure function, so equal inputs always give
equal paths. -/
theorem choose_out_dir_fallback (out_root uploader base : String)
    (h : 230 < (pathJoin (pathJoin out_root (_safe_for_filename uploader 40))
                  (_safe_for_filename base 80)).length) :
    _choose_out_dir out_root uploader base
      = pathJoin (pathJoin out_root (_safe_for_filename uploader 40))
          ("vid_" ++ String.mk ((md5Hexdigest (utf8Bytes
              (out_root ++ uploader ++ base))).data.take 8)) ∧
    ∀ r2 u2 b2, r2 = out_root → u2 = uploader → b2 = base →
      _choose_out_dir r2 u2 b2 = _choose_out_dir out_root uploader base := by
  refine ⟨?_, by intro r2 u2 b2 hr hu hb; rw [hr, hu, hb]⟩
  unfold _choose_out_dir
  simp only []
  rw [if_pos h]
  rfl

set_option maxRecDepth 8000 in
/-- Witness for C4 at concrete inputs: a 240-character root makes every
composed path exceed 230 characters. -/
theorem choose_out_dir_fallback_witness :
    230 < (pathJoin (pathJoin (String.mk (List.replicate 240 'a'))
            (_safe_for_filename "up" 40)) (_safe_for_filename "base" 80)).length ∧
    _choose_out_dir (String.mk (List.replicate 240 'a')) "up" "base"
      = pathJoin (pathJoin (String.mk (List.replicate 240 'a')) (_safe_for_filename "up" 40))
          ("vid_" ++ String.mk ((md5Hexdigest (utf8Bytes
              (String.mk (List.replicate 240 'a') ++ "up" ++ "base"))).data.take 8)) :=
  ⟨by decide, (choose_out_dir_fallback (String.mk (List.replicate 240 'a')) "up" "base"
    (by decide)).1⟩

/-- The emitted end time always lies strictly above the start time. -/
theorem normEnd_gt (s e : ℚ) : s < normEnd s e := by
  unfold normEnd
  split
  · linarith
  · next h => exact lt_of_not_le h

/-- Every entry produced by the VTT cue loop satisfies `start < end`. -/
theorem parseVttLoop_all (fuel : ℕ) : ∀ lines : List String,
    ((parseVttLoop fuel lines).all fun en => decide (en.start < en.«end»)) = true := by
  induction fuel with
  | zero => intro lines; cases lines <;> rfl
  | succ f ih =>
    intro lines
    cases lines with
    | nil => rfl
    | cons l rest =>
      rw [parseVttLoop]
      cases ht : timeRe l with
      | false =>
        simp only [ht, Bool.false_eq_true, if_false]
        exact ih _
      | true =>
        simp only [ht, if_true]
        rcases hsp : splitOnArrow l.data with _ | ⟨left, _ | ⟨right, _ | _⟩⟩
        · exact ih _
        · exact ih _
        · simp only [List.all_cons, Bool.and_eq_true, decide_eq_true_eq]
          exact ⟨normEnd_gt _ _, ih _⟩
        · exact ih _

/-- The fuel argument of `parseVttLoop` is irrelevant once it exceeds the
number of remaining lines: every iteration of the source's `while` loop
consumes at least the head line, so the loop embedding with fuel
`lines.length + 1` computes the loop's true fixpoint. -/
theorem parseVttLoop_fuel_congr : ∀ (n f₁ f₂ : ℕ) (lines : List String),
    lines.length ≤ n → lines.length < f₁ → lines.length < f₂ →
    parseVttLoop f₁ lines = parseVttLoop f₂ lines := by
  intro n
  induction n with
  | zero =>
    intro f₁ f₂ lines hn h1 h2
    cases lines with
    | nil => cases f₁ <;> cases f₂ <;> rfl
    | cons l rest => simp at hn
  | succ n ih =>
    intro f₁ f₂ lines hn h1 h2
    cases lines with
    | nil => cases f₁ <;> cases f₂ <;> rfl
    | cons l rest =>
      obtain ⟨g₁, rfl⟩ : ∃ g, f₁ = g + 1 := ⟨f₁ - 1, by omega⟩
      obtain ⟨g₂, rfl⟩ : ∃ g, f₂ = g + 1 := ⟨f₂ - 1, by omega⟩
      rw [parseVttLoop, parseVttLoop]
      simp only [List.length_cons] at hn h1 h2
      cases ht : timeRe l with
      | false =>
        simp only [ht, Bool.false_eq_true, if_false]
        exact ih g₁ g₂ rest (by omega) (by omega) (by omega)
      | true =>
        simp only [ht, if_true]
        rcases hsp : splitOnArrow l.data with _ | ⟨left, _ | ⟨right, _ | _⟩⟩
        · exact ih g₁ g₂ rest (by omega) (by omega) (by omega)
        · exact ih g₁ g₂ rest (by omega) (by omega) (by omega)
        · have hlen : ((rest.dropWhile fun s => !(pyStrip s.data).isEmpty).dropWhile
              fun s => (pyStrip s.data).isEmpty).length ≤ rest.length :=
            le_trans (List.dropWhile_suffix _).sublist.length_le
              (List.dropWhile_suffix _).sublist.length_le
          exact congrArg (List.cons _)
            (ih g₁ g₂ _ (le_trans hlen (by omega)) (lt_of_le_of_lt hlen (by omega))
              (lt_of_le_of_lt hlen (by omega)))
        · exact ih g₁ g₂ rest (by omega) (by omega) (by omega)

/-- A block that yields an entry yields one with `start < end`. -/
theorem parseSrtBlock_entry_gt {b : List String} {e : SubtitleEntry}
    (h : parseSrtBlock b = .entry e) : e.start < e.«end» := by
  simp only [parseSrtBlock] at h
  repeat' split at h
  all_goals first
    | exact (SrtBlockResult.noConfusion h)
    | (injection h with h2; subst h2; exact normEnd_gt _ _)

/-- Every entry produced by the SRT block loop satisfies `start < end`. -/
theorem parseSrtBlocks_all : ∀ blocks : List (List String),
    (((parseSrtBlocks blocks).getD []).all fun en => decide (en.start < en.«end»)) = true := by
  intro blocks
  induction blocks with
  | nil => rfl
  | cons b bs ih =>
    cases hb : parseSrtBlock b with
    | err => simp [parseSrtBlocks, hb]
    | skip => simpa [parseSrtBlocks, hb] using ih
    | entry e =>
      have he := parseSrtBlock_entry_gt hb
      cases hbs : parseSrtBlocks bs with
      | none => simp [parseSrtBlocks, hb, hbs]
      | some es =>
        rw [hbs] at ih
        simp only [Option.getD_some] at ih
        simp [parseSrtBlocks, hb, hbs, List.all_cons, he, ih]

/-- Rounding an integer-valued rational is exact. -/
theorem pyRound_intCast (m : ℤ) : pyRound ((m : ℚ)) = m := by
  unfold pyRound
  rw [Int.floor_intCast]
  norm_num

/-- A positive rational whose binary64 mantissa scaling is an integer is an
exact double: `roundB64Pos` returns it unchanged. -/
theorem roundB64Pos_int {q : ℚ} {m : ℤ}
    (hm : q / 2 ^ (Int.log 2 q - 52) = (m : ℚ)) : roundB64Pos q = q := by
  have hu : (2 : ℚ) ^ (Int.log 2 q - 52) ≠ 0 := zpow_ne_zero _ two_ne_zero
  unfold roundB64Pos
  rw [hm, pyRound_intCast]
  rw [div_eq_iff hu] at hm
  exact hm.symm

/-- Below `2^52` seconds, the source's float addition `start + 0.5` is
exact: a half-integer below `2^52` is a representable double, so binary64
rounding returns it unchanged. -/
theorem roundB64_half_exact {k : ℕ} (hk : k < 2 ^ 52) :
    roundB64 ((k : ℚ) + 1 / 2) = (k : ℚ) + 1 / 2 := by
  have hq0 : 0 < (k : ℚ) + 1 / 2 := by positivity
  have hqlt : (k : ℚ) + 1 / 2 < ((2 : ℕ) : ℚ) ^ (52 : ℤ) := by
    have hk' : (k : ℚ) ≤ 2 ^ 52 - 1 := by
      have h1 : k ≤ 2 ^ 52 - 1 := by omega
      have h2 : (k : ℚ) ≤ ((2 ^ 52 - 1 : ℕ) : ℚ) := by exact_mod_cast h1
      calc (k : ℚ) ≤ ((2 ^ 52 - 1 : ℕ) : ℚ) := h2
        _ = 2 ^ 52 - 1 := by push_cast; norm_num
    have : ((2 : ℕ) : ℚ) ^ (52 : ℤ) = 2 ^ (52 : ℕ) := by norm_num
    rw [this]
    linarith
  have hlog_lt : Int.log 2 ((k : ℚ) + 1 / 2) < 52 :=
    (Int.lt_zpow_iff_log_lt (by norm_num) hq0).mp hqlt
  set e := Int.log 2 ((k : ℚ) + 1 / 2) with he
  have h51 : (0 : ℤ) ≤ 51 - e := by omega
  obtain ⟨t, ht⟩ : ∃ t : ℕ, (51 - e : ℤ) = (t : ℤ) :=
    ⟨(51 - e).toNat, (Int.toNat_of_nonneg h51).symm⟩
  unfold roundB64
  rw [if_pos hq0]
  refine roundB64Pos_int (m := (2 * k + 1) * 2 ^ t) ?_
  rw [← he, div_eq_mul_inv, ← zpow_neg,
      show (-(e - 52) : ℤ) = 1 + (51 - e) by ring, ht,
      zpow_add₀ (two_ne_zero : (2 : ℚ) ≠ 0), zpow_one, zpow_natCast]
  push_cast
  ring

/-- C5 (amended): in both supported subtitle formats a cue whose raw end
time is at or before its raw start time is emitted with
`end = start + 0.5`, and — with the time arithmetic taken exactly, which
coincides with the source's binary64 float arithmetic whenever the
normalised sum is representable, in particular for all finite start times
below `2^52` seconds (last conjunct) — every entry either parser returns
satisfies `end > start`.  (As stated over the source's floats the claim is
false: see the counterexample, where `start + 0.5` rounds back to `start`
at `start = 10^16`, and a NaN start, accepted by the unvalidated `float()`
path, defeats the `end <= start` check entirely.) -/
theorem parser_end_gt_start :
    (∀ s e : ℚ, e ≤ s → normEnd s e = s + 1/2) ∧
    (∀ lines : List String,
      ((_parse_vtt lines).all fun en => decide (en.start < en.«end»)) = true) ∧
    (∀ lines : List String,
      (((_parse_srt lines).getD []).all fun en => decide (en.start < en.«end»)) = true) ∧
    (∀ k : ℕ, k < 2 ^ 52 → roundB64 ((k : ℚ) + 1 / 2) = (k : ℚ) + 1 / 2) := by
  refine ⟨?_, ?_, ?_, ?_⟩
  · intro s e h
    unfold normEnd
    rw [if_pos h]
  · intro lines
    unfold _parse_vtt
    exact parseVttLoop_all _ _
  · intro lines
    unfold _parse_srt
    exact parseSrtBlocks_all _
  · intro k hk
    exact roundB64_half_exact hk

/-- Counterexample to C5 as stated: in the well-formed SRT cue
`10000000000000000 --> 5` the time line splits into the two time strings,
which parse exactly to `start = 10^16` and `end = 5` (both exactly
representable doubles), the `end_s <= start_s` normalisation fires, and the
source's binary64 addition `start_s + 0.5` rounds back to `start_s` (the
unit in the last place of `10^16` is 2), so the emitted entry has
`end = start`, refuting `end > start`. -/
theorem parser_end_gt_start_counterexample :
    (splitOnArrow ("10000000000000000 --> 5".data)).map pyStrip
      = [['1', '0', '0', '0', '0', '0', '0', '0', '0', '0', '0', '0', '0', '0', '0', '0', '0'],
         ['5']] ∧
    _parse_time_to_seconds
        ['1', '0', '0', '0', '0', '0', '0', '0', '0', '0', '0', '0', '0', '0', '0', '0', '0']
      = 10 ^ 16 ∧
    _parse_time_to_seconds ['5'] = 5 ∧
    (5 : ℚ) ≤ 10 ^ 16 ∧
    normEndFloat (10 ^ 16) 5 = 10 ^ 16 ∧
    ¬ ((10 ^ 16 : ℚ) < normEndFloat (10 ^ 16) 5) := by
  have hsplit : (splitOnArrow ("10000000000000000 --> 5".data)).map pyStrip
      = [['1', '0', '0', '0', '0', '0', '0', '0', '0', '0', '0', '0', '0', '0', '0', '0', '0'],
         ['5']] := by decide
  have hp1 : _parse_time_to_seconds
        ['1', '0', '0', '0', '0', '0', '0', '0', '0', '0', '0', '0', '0', '0', '0', '0', '0']
      = ((10000000000000000 : ℕ) : ℚ) + ((0 : ℕ) : ℚ) / (10 ^ (0 : ℕ) : ℚ) := rfl
  have hp2 : _parse_time_to_seconds ['5']
      = ((5 : ℕ) : ℚ) + ((0 : ℕ) : ℚ) / (10 ^ (0 : ℕ) : ℚ) := rfl
  have hlog : Int.log 2 ((10 : ℚ) ^ 16 + 1 / 2) = 53 := by
    rw [Int.log_of_one_le_right _ (by norm_num : (1 : ℚ) ≤ (10 : ℚ) ^ 16 + 1 / 2)]
    have hfl : ⌊((10 : ℚ) ^ 16 + 1 / 2)⌋₊ = 10 ^ 16 := by
      rw [Nat.floor_eq_iff (by positivity)]
      constructor <;> [push_cast; push_cast] <;> norm_num
    rw [hfl]
    have hnl : Nat.log 2 (10 ^ 16) = 53 :=
      Nat.log_eq_of_pow_le_of_lt_pow (by norm_num) (by norm_num)
    exact_mod_cast hnl
  have hrb : roundB64 ((10 : ℚ) ^ 16 + 1 / 2) = 10 ^ 16 := by
    unfold roundB64
    rw [if_pos (by positivity : (0 : ℚ) < (10 : ℚ) ^ 16 + 1 / 2)]
    unfold roundB64Pos
    rw [hlog, show ((53 : ℤ) - 52) = 1 by norm_num, zpow_one]
    have harg : ((10 : ℚ) ^ 16 + 1 / 2) / 2 = 5 * 10 ^ 15 + 1 / 4 := by norm_num
    rw [harg]
    have hpr : pyRound ((5 : ℚ) * 10 ^ 15 + 1 / 4) = 5 * 10 ^ 15 := by
      unfold pyRound
      have hfl2 : ⌊(5 : ℚ) * 10 ^ 15 + 1 / 4⌋ = 5 * 10 ^ 15 := by
        rw [Int.floor_eq_iff]
        constructor <;> push_cast <;> norm_num
      rw [hfl2]
      norm_num
    rw [hpr]
    push_cast
    norm_num
  have hnf : normEndFloat (10 ^ 16) 5 = 10 ^ 16 := by
    unfold normEndFloat
    rw [if_pos (by norm_num : (5 : ℚ) ≤ 10 ^ 16), hrb]
  refine ⟨hsplit, ?_, ?_, by norm_num, hnf, ?_⟩
  · rw [hp1]; push_cast; norm_num
  · rw [hp2]; push_cast; norm_num
  · rw [hnf]; exact lt_irrefl _

/-- Witness for C5's amended statement at concrete inputs (a zero-duration
cue, and exactness of the float addition below `2^52`). -/
theorem parser_end_gt_start_witness :
    ((3:ℚ) ≤ 3 ∧ normEnd 3 3 = 3 + 1/2) ∧
    (((_parse_vtt ["00:00:01.000 --> 00:00:02.000", "hi"]).all
      fun en => decide (en.start < en.«end»)) = true) ∧
    ((3 : ℕ) < 2 ^ 52 ∧ roundB64 ((3 : ℕ) + 1 / 2 : ℚ) = ((3 : ℕ) + 1 / 2 : ℚ)) :=
  ⟨⟨by norm_num, parser_end_gt_start.1 3 3 (by norm_num)⟩,
    parser_end_gt_start.2.1 ["00:00:01.000 --> 00:00:02.000", "hi"],
    ⟨by norm_num, parser_end_gt_start.2.2.2 3 (by norm_num)⟩⟩

/-- Unfolding of the digit accumulator at positive fuel. -/
theorem natDigitsGo_succ (fuel n : ℕ) :
    natDigitsGo (fuel + 1) n = if n < 10 then [hexDigitChar n]
      else natDigitsGo fuel (n / 10) ++ [hexDigitChar (n % 10)] := rfl

/-- One-digit numbers have one digit character. -/
theorem natDigits_one {n : ℕ} (h : n < 10) : natDigits n = [hexDigitChar n] := by
  show natDigitsGo (n + 1) n = _
  rw [natDigitsGo_succ, if_pos h]

/-- Two-digit numbers have two digit characters. -/
theorem natDigits_two {n : ℕ} (h10 : 10 ≤ n) (h : n < 100) :
    natDigits n = [hexDigitChar (n / 10), hexDigitChar (n % 10)] := by
  obtain ⟨m, rfl⟩ : ∃ m, n = m + 1 := ⟨n - 1, by omega⟩
  show natDigitsGo (m + 1 + 1) (m + 1) = _
  rw [natDigitsGo_succ, if_neg (by omega : ¬ m + 1 < 10),
      natDigitsGo_succ, if_pos (by omega : (m + 1) / 10 < 10)]
  rfl

/-- Four-digit numbers (reachable by the rounded milliseconds value 1000)
have four digit characters; stated here only for 1000 itself. -/
theorem natDigits_1000 : natDigits 1000 = ['1', '0', '0', '0'] := by decide

/-- Digit characters are decimal digits. -/
theorem hexDigitChar_isDigit {n : ℕ} (h : n < 10) : (hexDigitChar n).isDigit = true := by
  interval_cases n <;> decide

/-- `f"{n:02d}"` of `0 ≤ n ≤ 99` is two digit characters. -/
theorem pyFmtInt_two_shape {n : ℤ} (h0 : 0 ≤ n) (h : n ≤ 99) :
    ∃ a b, (pyFmtInt 2 n).data = [a, b] ∧ a.isDigit = true ∧ b.isDigit = true := by
  unfold pyFmtInt
  rw [if_neg (by omega : ¬ n < 0)]
  by_cases h10 : n.toNat < 10
  · rw [natDigits_one h10]
    exact ⟨'0', hexDigitChar n.toNat, rfl, by decide, hexDigitChar_isDigit h10⟩
  · rw [natDigits_two (by omega) (by omega)]
    exact ⟨hexDigitChar (n.toNat / 10), hexDigitChar (n.toNat % 10), rfl,
      hexDigitChar_isDigit (by omega), hexDigitChar_isDigit (by omega)⟩

/-- `f"{n:03d}"` of `0 ≤ n ≤ 999` is three digit characters. -/
theorem pyFmtInt_three_shape {n : ℤ} (h0 : 0 ≤ n) (h : n ≤ 999) :
    ∃ a b c, (pyFmtInt 3 n).data = [a, b, c] ∧
      a.isDigit = true ∧ b.isDigit = true ∧ c.isDigit = true := by
  unfold pyFmtInt
  rw [if_neg (by omega : ¬ n < 0)]
  by_cases h10 : n.toNat < 10
  · rw [natDigits_one h10]
    exact ⟨'0', '0', hexDigitChar n.toNat, rfl, by decide, by decide, hexDigitChar_isDigit h10⟩
  · by_cases h100 : n.toNat < 100
    · rw [natDigits_two (by omega) h100]
      exact ⟨'0', hexDigitChar (n.toNat / 10), hexDigitChar (n.toNat % 10), rfl,
        by decide, hexDigitChar_isDigit (by omega), hexDigitChar_isDigit (by omega)⟩
    · obtain ⟨m, hm⟩ : ∃ m, n.toNat = m + 2 := ⟨n.toNat - 2, by omega⟩
      rw [hm]
      rw [show natDigits (m + 2) = natDigitsGo (m + 2 + 1) (m + 2) from rfl,
          natDigitsGo_succ, if_neg (by omega : ¬ m + 2 < 10),
          natDigitsGo_succ, if_neg (by omega : ¬ (m + 2) / 10 < 10),
          natDigitsGo_succ, if_pos (by omega : (m + 2) / 10 / 10 < 10)]
      exact ⟨hexDigitChar ((m + 2) / 10 / 10), hexDigitChar ((m + 2) / 10 % 10),
        hexDigitChar ((m + 2) % 10), rfl,
        hexDigitChar_isDigit (by omega), hexDigitChar_isDigit (by omega),
        hexDigitChar_isDigit (by omega)⟩

/-- Rounding a non-negative rational is non-negative. -/
theorem pyRound_nonneg {q : ℚ} (h : 0 ≤ q) : 0 ≤ pyRound q := by
  have hf : 0 ≤ ⌊q⌋ := Int.floor_nonneg.mpr h
  unfold pyRound
  split
  · exact hf
  · split
    · omega
    · split <;> omega

/-- C7 (amended): for timestamps below 100 hours whose rounded millisecond
value stays below 1000, the frame filename is exactly
`{HH-MM-SS-mmm}_{tag}.jpg` with 2-2-2-3-digit zero-padded fields.  (The
unamended claim fails: `ms = int(round(frac*1000))` reaches 1000 when the
fractional part is ≥ 0.9995, printing a 4-digit field, and hours ≥ 100
print 3 digits — see the counterexample.) -/
theorem frame_fname_format (t : ℚ) (tag : String) (h0 : 0 ≤ t) (h1 : t < 360000)
    (hms : pyRound ((t - (pyIntTrunc t : ℚ)) * 1000) ≤ 999) :
    isTsForm (_sec_to_fname_ts t) = true ∧
    frameFname t tag = _sec_to_fname_ts t ++ "_" ++ tag ++ ".jpg" := by
  refine ⟨?_, rfl⟩
  have hT : pyIntTrunc t = ⌊t⌋ := by unfold pyIntTrunc; rw [if_pos h0]
  have hT0 : 0 ≤ pyIntTrunc t := by rw [hT]; exact Int.floor_nonneg.mpr h0
  have hTle : (pyIntTrunc t : ℚ) ≤ t := by rw [hT]; exact Int.floor_le t
  have hTlt : pyIntTrunc t < 360000 := by
    rw [hT]
    exact_mod_cast lt_of_le_of_lt (Int.floor_le t) h1
  have hms0 : 0 ≤ pyRound ((t - (pyIntTrunc t : ℚ)) * 1000) :=
    pyRound_nonneg (mul_nonneg (sub_nonneg.mpr hTle) (by norm_num))
  have hH : Int.fdiv (pyIntTrunc t) 3600 = pyIntTrunc t / 3600 :=
    Int.fdiv_eq_ediv _ (by norm_num)
  have hM : Int.fmod (Int.fdiv (pyIntTrunc t) 60) 60 = (pyIntTrunc t / 60) % 60 := by
    rw [Int.fdiv_eq_ediv _ (by norm_num), Int.fmod_eq_emod _ (by norm_num)]
  have hS : Int.fmod (pyIntTrunc t) 60 = pyIntTrunc t % 60 :=
    Int.fmod_eq_emod _ (by norm_num)
  obtain ⟨a1, a2, hA, hA1, hA2⟩ :=
    pyFmtInt_two_shape (n := Int.fdiv (pyIntTrunc t) 3600)
      (by rw [hH]; omega) (by rw [hH]; omega)
  obtain ⟨b1, b2, hB, hB1, hB2⟩ :=
    pyFmtInt_two_shape (n := Int.fmod (Int.fdiv (pyIntTrunc t) 60) 60)
      (by rw [hM]; omega) (by rw [hM]; omega)
  obtain ⟨c1, c2, hC, hC1, hC2⟩ :=
    pyFmtInt_two_shape (n := Int.fmod (pyIntTrunc t) 60)
      (by rw [hS]; omega) (by rw [hS]; omega)
  obtain ⟨d1, d2, d3, hD, hD1, hD2, hD3⟩ :=
    pyFmtInt_three_shape (n := pyRound ((t - (pyIntTrunc t : ℚ)) * 1000)) hms0 hms
  have hdata : (_sec_to_fname_ts t).data
      = [a1, a2, '-', b1, b2, '-', c1, c2, '-', d1, d2, d3] := by
    unfold _sec_to_fname_ts
    simp only [String.data_append, hA, hB, hC, hD]
    rfl
  unfold isTsForm
  rw [hdata]
  simp [hA1, hA2, hB1, hB2, hC1, hC2, hD1, hD2, hD3]

/-- Counterexample to C7 as stated: at the in-range timestamp `t = 0.9999`
the rounded millisecond value is 1000, so the filename's millisecond field
has four digits (`00-00-00-1000`), not three. -/
theorem frame_fname_format_counterexample :
    (0 : ℚ) ≤ 9999 / 10000 ∧
    isTsForm (_sec_to_fname_ts (9999 / 10000)) = false := by
  refine ⟨by norm_num, ?_⟩
  have h1 : pyIntTrunc (9999 / 10000 : ℚ) = 0 := by
    unfold pyIntTrunc
    rw [if_pos (by norm_num)]
    norm_num [Int.floor_eq_iff]
  have harg : ((9999 / 10000 : ℚ) - (pyIntTrunc (9999 / 10000 : ℚ) : ℚ)) * 1000
      = 9999 / 10 := by
    rw [h1]
    norm_num
  have h2 : pyRound (((9999 / 10000 : ℚ) - (pyIntTrunc (9999 / 10000 : ℚ) : ℚ)) * 1000)
      = 1000 := by
    rw [harg]
    have hf : ⌊(9999 : ℚ) / 10⌋ = 999 := by norm_num [Int.floor_eq_iff]
    unfold pyRound
    rw [hf]
    norm_num
  unfold _sec_to_fname_ts
  rw [h2, h1]
  decide

/-- Witness for the amended C7 at the concrete timestamp 75 s. -/
theorem frame_fname_format_witness :
    (0 : ℚ) ≤ 75 ∧ (75 : ℚ) < 360000 ∧
    pyRound (((75 : ℚ) - (pyIntTrunc 75 : ℚ)) * 1000) ≤ 999 ∧
    isTsForm (_sec_to_fname_ts 75) = true := by
  have h75 : pyIntTrunc (75 : ℚ) = 75 := by
    unfold pyIntTrunc
    rw [if_pos (by norm_num)]
    norm_num [Int.floor_eq_iff]
  have hr : pyRound (((75 : ℚ) - (pyIntTrunc 75 : ℚ)) * 1000) = 0 := by
    have harg : ((75 : ℚ) - (pyIntTrunc 75 : ℚ)) * 1000 = 0 := by
      rw [h75]; norm_num
    rw [harg]
    unfold pyRound
    norm_num
  exact ⟨by norm_num, by norm_num, by rw [hr]; norm_num,
    (frame_fname_format 75 "start" (by norm_num) (by norm_num) (by rw [hr]; norm_num)).1⟩

/-- C2: an entry whose clamped start time is below the 10-second warm-up
window contributes no time points — no extraction attempt, no save, no
delete, no state change (`video_cut.py` lines 236-237). -/
theorem warmup_window_skips_entry (thr : ℤ) (oracle : ℚ → String → FrameOutcome)
    (duration : ℚ) (st : DriverState) (e : SubtitleEntry)
    (h : clampedStart duration e < 10) :
    entryTimePoints duration e = [] ∧
    processEntry thr oracle duration st e = (st, []) := by
  have h1 : entryTimePoints duration e = [] := by
    unfold entryTimePoints
    simp [h]
  exact ⟨h1, by unfold processEntry; rw [h1]; rfl⟩

/-- Witness for C2 at concrete inputs (entry starting at 5s). -/
theorem warmup_window_skips_entry_witness :
    clampedStart 0 ⟨5, 8, "x"⟩ < 10 ∧
    processEntry 5 (fun _ _ => ⟨true, true, none⟩) 0 ⟨[], 0, 0⟩ ⟨5, 8, "x"⟩ = (⟨[], 0, 0⟩, []) :=
  ⟨by norm_num [clampedStart, safeEnd, max_def, min_def],
    (warmup_window_skips_entry 5 (fun _ _ => ⟨true, true, none⟩) 0 ⟨[], 0, 0⟩ ⟨5, 8, "x"⟩
      (by norm_num [clampedStart, safeEnd, max_def, min_def])).2⟩

end VideoCut

namespace Pipeline

/-- C9: `_read_new_records` returns exactly the well-formed manifest records
whose `created_at` is at least the start timestamp (in file order, blank and
malformed lines skipped), and an empty selection makes the orchestrator's
run process no video at all. -/
theorem read_new_records_spec (lines : List ManifestLine) (since_ts : ℤ)
    (pathExists : String → Bool) :
    _read_new_records lines since_ts
      = (wellFormedRecords lines).filter
          (fun rec => decide (since_ts ≤ rec.created_at.getD 0)) ∧
    (_read_new_records lines since_ts = [] →
      processedVideos lines since_ts pathExists = []) := by
  constructor
  · induction lines with
    | nil => rfl
    | cons l ls ih =>
      cases l with
      | blank => simpa [_read_new_records, wellFormedRecords] using ih
      | malformed => simpa [_read_new_records, wellFormedRecords] using ih
      | record rec =>
        by_cases hc : since_ts ≤ rec.created_at.getD 0 <;>
          simp [_read_new_records, wellFormedRecords, hc, List.filter_cons] at * <;>
          exact ih
  · intro h
    unfold processedVideos
    simp [h]

/-- Witness for C9's early-exit part at concrete inputs. -/
theorem read_new_records_spec_witness :
    _read_new_records [ManifestLine.malformed, ManifestLine.blank] 7 = [] ∧
    processedVideos [ManifestLine.malformed, ManifestLine.blank] 7 (fun _ => true) = [] :=
  ⟨rfl, (read_new_records_spec [ManifestLine.malformed, ManifestLine.blank] 7
    (fun _ => true)).2 rfl⟩

end Pipeline
